import Mathlib

/-!
Verification development for the `ubik` package tool.

JavaScript strings are modelled as `List Char` (`Str`); JavaScript `Map`s
as association lists in insertion order; the filesystem as an association
list from package-root-relative path to file content.  Absolute paths are
modelled root-relatively (the constant `cwd` prefix of the real tool is a
bijective renaming and is elided).
-/

set_option maxRecDepth 10000

abbrev Str := List Char

/-- Literal helper: turn a Lean string literal into the `Str` model type. -/
def str (s : String) : Str := s.toList

/-- Boolean prefix test on char lists (model of `String.prototype.startsWith`
when applied as `pfx p s` = "s starts with p"). -/
def pfx : Str → Str → Bool
  | [], _ => true
  | _ :: _, [] => false
  | a :: as, b :: bs => a == b && pfx as bs

/-- `s.startsWith(p)` from JS. -/
def startsWithS (s p : Str) : Bool := pfx p s

/-- `s.endsWith(p)` from JS, via reversal. -/
def endsWithS (s p : Str) : Bool := pfx p.reverse s.reverse

theorem pfx_self_append (p t : Str) : pfx p (p ++ t) = true := by
  induction p with
  | nil => rfl
  | cons a as ih => simp [pfx, ih]

theorem pfx_append_of_length_le (p q r : Str) (h : p.length ≤ q.length) :
    pfx p (q ++ r) = pfx p q := by
  induction p generalizing q with
  | nil => simp [pfx]
  | cons a as ih =>
    cases q with
    | nil => simp at h
    | cons b bs =>
      simp only [List.cons_append, pfx]
      simp only [List.length_cons, Nat.succ_le_succ_iff] at h
      rw [show bs.append r = bs ++ r from rfl, ih bs h]

theorem endsWithS_append (s t : Str) : endsWithS (s ++ t) t = true := by
  unfold endsWithS
  rw [List.reverse_append]
  exact pfx_self_append t.reverse s.reverse

theorem endsWithS_append_of_length_le (s t p : Str) (h : p.length ≤ t.length) :
    endsWithS (s ++ t) p = endsWithS t p := by
  unfold endsWithS
  rw [List.reverse_append]
  exact pfx_append_of_length_le p.reverse t.reverse s.reverse (by simpa using h)

theorem startsWithS_append (s t p : Str) (h : startsWithS s p = true) :
    startsWithS (s ++ t) p = true := by
  unfold startsWithS at *
  induction p generalizing s with
  | nil => rfl
  | cons a as ih =>
    cases s with
    | nil => simp [pfx] at h
    | cons b bs =>
      simp only [pfx, Bool.and_eq_true] at h ⊢
      exact ⟨h.1, ih bs h.2⟩

/-- Strip a suffix if present (used by node `basename(x, ext)`). -/
def dropSuffixS (s suf : Str) : Str :=
  if endsWithS s suf then s.take (s.length - suf.length) else s

/-! ### Association lists with JavaScript `Map` semantics -/

/-- `map.get(k)` -/
def mapGet {β : Type} (m : List (Str × β)) (k : Str) : Option β :=
  match m with
  | [] => none
  | (k', v) :: rest => if k' = k then some v else mapGet rest k

/-- `map.has(k)` -/
def mapHas {β : Type} (m : List (Str × β)) (k : Str) : Bool :=
  (mapGet m k).isSome

/-- `map.set(k, v)`: replace in place if present, else append (insertion order). -/
def mapSet {β : Type} (m : List (Str × β)) (k : Str) (v : β) : List (Str × β) :=
  match m with
  | [] => [(k, v)]
  | (k', v') :: rest => if k' = k then (k', v) :: rest else (k', v') :: mapSet rest k v

/-- `map.delete(k)` -/
def mapDelete {β : Type} (m : List (Str × β)) (k : Str) : List (Str × β) :=
  match m with
  | [] => []
  | (k', v') :: rest => if k' = k then rest else (k', v') :: mapDelete rest k

/-- The key list of a map. -/
def mapKeys {β : Type} (m : List (Str × β)) : List Str := m.map Prod.fst

theorem mapGet_set_self {β : Type} (m : List (Str × β)) (k : Str) (v : β) :
    mapGet (mapSet m k v) k = some v := by
  induction m with
  | nil => simp [mapSet, mapGet]
  | cons hd tl ih =>
    obtain ⟨k', v'⟩ := hd
    by_cases h : k' = k
    · simp [mapSet, mapGet, h]
    · simp [mapSet, mapGet, h, ih]

theorem mapGet_set_other {β : Type} (m : List (Str × β)) (k k' : Str) (v : β)
    (h : k ≠ k') : mapGet (mapSet m k v) k' = mapGet m k' := by
  induction m with
  | nil => simp [mapSet, mapGet, h]
  | cons hd tl ih =>
    obtain ⟨k0, v0⟩ := hd
    by_cases h0 : k0 = k
    · subst h0
      simp [mapSet, mapGet, h]
    · simp [mapSet, mapGet, h0, ih]

theorem mapGet_eq_none_of_not_mem {β : Type} (m : List (Str × β)) (k : Str)
    (h : k ∉ mapKeys m) : mapGet m k = none := by
  induction m with
  | nil => rfl
  | cons hd tl ih =>
    obtain ⟨k0, v0⟩ := hd
    simp only [mapKeys, List.map_cons, List.mem_cons, not_or] at h
    have hne : ¬ k0 = k := fun he => h.1 he.symm
    simp only [mapGet, if_neg hne]
    exact ih h.2

theorem mapGet_delete_self {β : Type} (m : List (Str × β)) (k : Str)
    (hnd : (mapKeys m).Nodup) : mapGet (mapDelete m k) k = none := by
  induction m with
  | nil => simp [mapDelete, mapGet]
  | cons hd tl ih =>
    obtain ⟨k0, v0⟩ := hd
    simp only [mapKeys, List.map_cons, List.nodup_cons] at hnd
    by_cases h0 : k0 = k
    · subst h0
      simp only [mapDelete, if_pos rfl]
      exact mapGet_eq_none_of_not_mem tl k0 hnd.1
    · simp only [mapDelete, if_neg h0, mapGet, if_neg h0]
      exact ih hnd.2

theorem mapGet_delete_other {β : Type} (m : List (Str × β)) (k k' : Str)
    (h : k ≠ k') : mapGet (mapDelete m k) k' = mapGet m k' := by
  induction m with
  | nil => simp [mapDelete]
  | cons hd tl ih =>
    obtain ⟨k0, v0⟩ := hd
    by_cases h0 : k0 = k
    · subst h0
      simp [mapDelete, mapGet, h]
    · simp [mapDelete, mapGet, h0, ih]

/-! ### Path components and normalization

Model of the node `path` operations used by `Resolver.resolve`
(`src/tool/tool-resolve.mjs`):
`join(relative(root, resolve(root, dirname(source), target)))` with the
leading `./` stripped, over package-root-relative paths.
-/

/-- Split a path into components at every slash (`"a//b"` gives `a`, ` `, `b`). -/
def splitC : Str → List Str
  | [] => [[]]
  | c :: rest =>
    match splitC rest with
    | [] => [[]]
    | comp :: comps => if c = '/' then [] :: comp :: comps else (c :: comp) :: comps

/-- Join components with slashes. -/
def joinC : List Str → Str
  | [] => []
  | [c] => c
  | c :: rest => c ++ '/' :: joinC rest

/-- One step of node path normalization: skip empty and `.` components,
let `..` pop the stack (or accumulate at the front, as `relative` does for
targets above the root). The stack is kept in reverse order. -/
def normStep (stack : List Str) (c : Str) : List Str :=
  if c = [] ∨ c = str "." then stack
  else if c = str ".." then
    match stack with
    | [] => [str ".."]
    | top :: rest => if top = str ".." then c :: top :: rest else rest
  else c :: stack

/-- Normalized root-relative path of `target`, resolved from the directory
of root-relative `source`. -/
def normPath (source target : Str) : Str :=
  joinC (((splitC source).dropLast ++ splitC target).foldl normStep []).reverse

theorem splitC_ne_nil (s : Str) : splitC s ≠ [] := by
  cases s with
  | nil => simp [splitC]
  | cons c rest =>
    simp only [splitC]
    cases splitC rest with
    | nil => simp
    | cons comp comps => by_cases hc : c = '/' <;> simp [hc]

theorem splitC_append_slash (a b : Str) : splitC (a ++ '/' :: b) = splitC a ++ splitC b := by
  induction a with
  | nil =>
    simp only [List.nil_append, splitC]
    cases h : splitC b with
    | nil => exact absurd h (splitC_ne_nil b)
    | cons comp comps => simp
  | cons c cs ih =>
    simp only [List.cons_append, splitC, ih]
    cases h : splitC cs with
    | nil => exact absurd h (splitC_ne_nil cs)
    | cons comp comps =>
      cases hb : splitC b with
      | nil => exact absurd hb (splitC_ne_nil b)
      | cons c2 c2s =>
        rw [show cs.append ('/' :: b) = cs ++ '/' :: b from rfl, ih, h, hb]
        by_cases hc : c = '/' <;> simp [hc]

theorem joinC_cons (a : Str) (rest : List Str) (h : rest ≠ []) :
    joinC (a :: rest) = a ++ '/' :: joinC rest := by
  cases rest with
  | nil => exact absurd rfl h
  | cons b l2 => rfl

theorem joinC_append_singleton (l : List Str) (x : Str) (h : l ≠ []) :
    joinC (l ++ [x]) = joinC l ++ '/' :: x := by
  induction l with
  | nil => exact absurd rfl h
  | cons a l ih =>
    cases l with
    | nil => simp [joinC]
    | cons b l2 =>
      rw [List.cons_append, joinC_cons a _ (by simp), joinC_cons a (b :: l2) (by simp),
        ih (by simp)]
      simp [List.append_assoc]

theorem foldl_normStep_append_index (init : List Str) (cs : List Str) :
    (cs ++ [str "index"]).foldl normStep init =
      str "index" :: cs.foldl normStep init := by
  rw [List.foldl_append]
  simp only [List.foldl_cons, List.foldl_nil]
  rw [show normStep (cs.foldl normStep init) (str "index") =
      str "index" :: cs.foldl normStep init by
    unfold normStep
    simp [str]]

theorem normPath_append_index (s t : Str) (h : normPath s t ≠ []) :
    normPath s (t ++ str "/index") = normPath s t ++ str "/index" := by
  unfold normPath at *
  rw [show t ++ str "/index" = t ++ '/' :: str "index" from rfl, splitC_append_slash]
  rw [show splitC (str "index") = [str "index"] from rfl]
  rw [show (splitC s).dropLast ++ (splitC t ++ [str "index"]) =
      ((splitC s).dropLast ++ splitC t) ++ [str "index"] from (List.append_assoc _ _ _).symm]
  rw [foldl_normStep_append_index]
  rw [List.reverse_cons]
  have hne : (((splitC s).dropLast ++ splitC t).foldl normStep []).reverse ≠ [] := by
    intro he
    apply h
    rw [he]
    rfl
  rw [joinC_append_singleton _ _ hne]
  rfl

/-! ### The Resolver (`src/tool/tool-resolve.mjs`)

Entry variants mirror the class hierarchy: `File` and `JSONFile` both
satisfy `instanceof File`, `TSFile` is excluded by the explicit
`!(... instanceof TSFile)` check, and `Directory` is not a `File`.
-/

inductive EntryKind : Type
  | plainFile
  | jsonFile
  | tsFile
  | directory
deriving DecidableEq, Repr

/-- The resolver graph: package-root-relative path to entry, as built by
`Resolver.load`. -/
abbrev Graph := List (Str × EntryKind)

/-- `instanceof File && !(instanceof TSFile)` from the first branch of
`Resolver.resolve`. -/
def isNonTSFile : EntryKind → Bool
  | .plainFile => true
  | .jsonFile => true
  | _ => false

inductive RWarn : Type
  | nonTSImport (path : Str)
  | collision (path : Str)
  | directoryImport (path : Str)
deriving DecidableEq, Repr

inductive RRes : Type
  | nullR
  | entry (path : Str) (kind : EntryKind)
  | errR (msg : Str)
  | fuelOut
deriving DecidableEq, Repr

/-- Branches 2 and 3 of `Resolver.resolve` (TS file with collision
warning, then directory with recursion into `target + "/index"`, whose
result is passed in as `inner`). -/
def resolveRest (inner : RRes × List RWarn) (g : Graph) (path : Str) : RRes × List RWarn :=
  -- TS files - need to add extension
  match mapGet g (path ++ str ".ts") with
  | some k =>
    -- Warn about collision if there is both directory and file with the same name
    if mapHas g (path ++ str "/index.ts") then
      (.entry (path ++ str ".ts") k, [.collision path])
    else
      (.entry (path ++ str ".ts") k, [])
  | none =>
    -- Directories - need to add index.ts
    if mapHas g (path ++ str "/index.ts") then
      (inner.1, .directoryImport path :: inner.2)
    else
      (.errR (str "not found"), [])

/-- Fuel-indexed model of `Resolver.resolve(source, target)`.  The only
recursive call in the source is on `target + "/index"`, guarded by the
presence of `path + "/index.ts"`, which the recursive call immediately
finds; fuel 2 therefore suffices. -/
def resolveF : Nat → Graph → Str → Str → RRes × List RWarn
  | 0, _, _, _ => (.fuelOut, [])
  | n + 1, g, source, target =>
    -- Ignore package imports
    if startsWithS target (str ".") = false then (.nullR, [])
    -- Fail on `.ts` extension
    else if endsWithS target (str ".ts") then
      (.errR (str "TypeScript disallows imports ending in .ts"), [])
    else
      -- Non-TS files (such as JS or JSON imports)
      match mapGet g (normPath source target) with
      | some k =>
        if isNonTSFile k then
          (.entry (normPath source target) k, [.nonTSImport (normPath source target)])
        else
          resolveRest (resolveF n g source (target ++ str "/index")) g (normPath source target)
      | none =>
        resolveRest (resolveF n g source (target ++ str "/index")) g (normPath source target)

/-- `Resolver.resolve`, at the fuel bound that the recursion structure
guarantees. -/
def resolve (g : Graph) (source target : Str) : RRes × List RWarn :=
  resolveF 2 g source target

theorem mapGet_mem {β : Type} (m : List (Str × β)) (k : Str) (v : β)
    (h : mapGet m k = some v) : (k, v) ∈ m := by
  induction m with
  | nil => simp [mapGet] at h
  | cons hd tl ih =>
    obtain ⟨k0, v0⟩ := hd
    simp only [mapGet] at h
    split at h
    · next heq =>
      injection h with hv
      subst heq
      subst hv
      exact List.mem_cons_self _ _
    · exact List.mem_cons_of_mem _ (ih h)

/-- Well-formedness of a loaded graph: no directory is indexed under a
path ending in the TypeScript source extension (`Resolver.load` maps
`*.ts` files to `TSFile`; a directory literally named `*.ts` is excluded). -/
def noTsDirectory (g : Graph) : Bool :=
  g.all fun pk => !(endsWithS pk.1 (str ".ts")) || !(pk.2 = .directory)

theorem noTsDirectory_entry (g : Graph) (p : Str) (k : EntryKind)
    (hwf : noTsDirectory g = true) (hg : mapGet g p = some k)
    (hts : endsWithS p (str ".ts") = true) : k ≠ .directory := by
  have hmem := mapGet_mem _ _ _ hg
  have := List.all_eq_true.mp hwf _ hmem
  simp only [Bool.or_eq_true, Bool.not_eq_true] at this
  rcases this with h1 | h1
  · rw [hts] at h1
    cases h1
  · simpa using h1

/-- Generic form of the "never a Directory" property, by induction on fuel. -/
theorem resolveF_entry_not_directory (n : Nat) (g : Graph) (source target p : Str)
    (k : EntryKind) (hwf : noTsDirectory g = true)
    (h : (resolveF n g source target).1 = .entry p k) : k ≠ .directory := by
  induction n generalizing target p k with
  | zero => simp [resolveF] at h
  | succ n ih =>
    rw [resolveF] at h
    split at h
    · simp at h
    · split at h
      · simp at h
      · have hrest : ∀ hres : (resolveRest (resolveF n g source (target ++ str "/index")) g
            (normPath source target)).1 = .entry p k, k ≠ .directory := by
          intro hres
          rw [resolveRest] at hres
          split at hres
          · next k2 hg2 =>
            split at hres
            · simp only [RRes.entry.injEq] at hres
              cases hres.2
              exact noTsDirectory_entry g _ _ hwf hg2 (endsWithS_append _ _)
            · simp only [RRes.entry.injEq] at hres
              cases hres.2
              exact noTsDirectory_entry g _ _ hwf hg2 (endsWithS_append _ _)
          · split at hres
            · exact ih (target ++ str "/index") p k hres
            · simp at hres
        split at h
        · split at h
          · simp only [RRes.entry.injEq] at h
            rename_i hfile
            rw [← h.2]
            intro hdir
            rw [hdir] at hfile
            simp [isNonTSFile] at hfile
          · exact hrest h
        · exact hrest h

theorem resolveRest_flat (inner : RRes × List RWarn) (g : Graph) (path : Str)
    (k : EntryKind) (hget : mapGet g (path ++ str ".ts") = some k)
    (hidx : mapHas g (path ++ str "/index.ts") = true) :
    resolveRest inner g path = (.entry (path ++ str ".ts") k, [.collision path]) := by
  rw [resolveRest]
  simp only [hget, hidx]
  rfl

theorem resolveRest_dir (inner : RRes × List RWarn) (g : Graph) (path : Str)
    (hget : mapGet g (path ++ str ".ts") = none)
    (hidx : mapHas g (path ++ str "/index.ts") = true) :
    resolveRest inner g path = (inner.1, .directoryImport path :: inner.2) := by
  rw [resolveRest]
  simp only [hget, hidx]
  rfl

/-- C7: for every graph state, source path and specifier ending in the
module-source extension `.ts`, `Resolver.resolve` never returns an Entry;
for a relative specifier it fails with the `InvalidSpecifier` error,
regardless of whether a file exists at that path (the check precedes every
graph lookup), while a non-relative one falls under the package-import
`null` return. -/
theorem claim_C7_resolve_rejects_ts_extension (g : Graph) (source target : Str)
    (hts : endsWithS target (str ".ts") = true) :
    (startsWithS target (str ".") = true →
      resolve g source target =
        (.errR (str "TypeScript disallows imports ending in .ts"), []))
    ∧ (∀ p k, (resolve g source target).1 ≠ .entry p k) := by
  constructor
  · intro hrel
    rw [resolve, resolveF, if_neg (by simp [hrel]), if_pos hts]
  · intro p k
    rw [resolve, resolveF]
    by_cases hrel : startsWithS target (str ".") = false
    · rw [if_pos hrel]
      simp
    · rw [if_neg hrel, if_pos hts]
      simp

/-- Witness for C7 at the concrete graph with `a.ts` indexed and the
specifier `./a.ts`: the error is raised even though the file exists. -/
theorem claim_C7_witness :
    endsWithS (str "./a.ts") (str ".ts") = true ∧
    resolve [(str "a.ts", EntryKind.tsFile)] (str "b.ts") (str "./a.ts") =
      (.errR (str "TypeScript disallows imports ending in .ts"), []) :=
  ⟨by decide,
    (claim_C7_resolve_rejects_ts_extension [(str "a.ts", EntryKind.tsFile)]
      (str "b.ts") (str "./a.ts") (by decide)).1 (by decide)⟩

/-- C3 counterexample: with `foo` a directory containing both an
extensionless plain file `index` and the module `index.ts`, the directory
fallthrough recursion resolves `./foo` to the plain (non-module) file
entry `foo/index`, so the returned Entry is not a leaf module file. -/
theorem claim_C3_counterexample :
    resolve
        [(str "foo", EntryKind.directory), (str "foo/index", EntryKind.plainFile),
          (str "foo/index.ts", EntryKind.tsFile)]
        (str "a.ts") (str "./foo") =
      (.entry (str "foo/index") .plainFile,
        [.directoryImport (str "foo"), .nonTSImport (str "foo/index")]) ∧
    EntryKind.plainFile ≠ EntryKind.tsFile := by
  constructor
  · decide
  · decide

/-- C3 (amended): in `Resolver.resolve`, (a) when both `path.ts` and
`path/index.ts` are indexed (and `path` itself is unindexed or a
directory), the flat file entry wins and a collision warning is emitted;
(b) when only the directory index exists, resolution recurses on the
specifier plus `/index`; and (c) in a graph where no `*.ts` path is a
directory, a returned Entry is never a Directory (though it may be a plain
non-module file, per the counterexample). -/
theorem claim_C3_resolver_tiebreak (g : Graph) (source target : Str)
    (hwf : noTsDirectory g = true) :
    (∀ k, startsWithS target (str ".") = true →
      endsWithS target (str ".ts") = false →
      (mapGet g (normPath source target) = none ∨
        mapGet g (normPath source target) = some .directory) →
      mapGet g (normPath source target ++ str ".ts") = some k →
      mapHas g (normPath source target ++ str "/index.ts") = true →
      resolve g source target =
        (.entry (normPath source target ++ str ".ts") k,
          [.collision (normPath source target)]))
    ∧ (startsWithS target (str ".") = true →
      endsWithS target (str ".ts") = false →
      (mapGet g (normPath source target) = none ∨
        mapGet g (normPath source target) = some .directory) →
      mapGet g (normPath source target ++ str ".ts") = none →
      mapHas g (normPath source target ++ str "/index.ts") = true →
      resolve g source target =
        ((resolveF 1 g source (target ++ str "/index")).1,
          .directoryImport (normPath source target) ::
            (resolveF 1 g source (target ++ str "/index")).2))
    ∧ (∀ p k, (resolve g source target).1 = .entry p k → k ≠ .directory) := by
  refine ⟨?_, ?_, ?_⟩
  · intro k hrel hts hdir hflat hidx
    rw [resolve, resolveF, if_neg (by simp [hrel]), if_neg (by simp [hts])]
    split
    · next k0 heq =>
      rcases hdir with h | h
      · rw [heq] at h
        cases h
      · rw [heq] at h
        injection h with hk
        subst hk
        rw [if_neg (by simp [isNonTSFile])]
        exact resolveRest_flat _ g _ k hflat hidx
    · exact resolveRest_flat _ g _ k hflat hidx
  · intro hrel hts hdir hflat hidx
    rw [resolve, resolveF, if_neg (by simp [hrel]), if_neg (by simp [hts])]
    split
    · next k0 heq =>
      rcases hdir with h | h
      · rw [heq] at h
        cases h
      · rw [heq] at h
        injection h with hk
        subst hk
        rw [if_neg (by simp [isNonTSFile])]
        exact resolveRest_dir _ g _ hflat hidx
    · exact resolveRest_dir _ g _ hflat hidx
  · intro p k
    exact resolveF_entry_not_directory 2 g source target p k hwf

/-- Witness for C3 (amended) on the graph with both `foo.ts` and
`foo/index.ts`: the flat file wins and the collision warning is emitted. -/
theorem claim_C3_witness :
    noTsDirectory
        [(str "foo.ts", EntryKind.tsFile), (str "foo", EntryKind.directory),
          (str "foo/index.ts", EntryKind.tsFile)] = true ∧
    resolve
        [(str "foo.ts", EntryKind.tsFile), (str "foo", EntryKind.directory),
          (str "foo/index.ts", EntryKind.tsFile)]
        (str "a.ts") (str "./foo") =
      (.entry (str "foo.ts") .tsFile, [.collision (str "foo")]) :=
  ⟨by decide,
    (claim_C3_resolver_tiebreak
        [(str "foo.ts", EntryKind.tsFile), (str "foo", EntryKind.directory),
          (str "foo/index.ts", EntryKind.tsFile)]
        (str "a.ts") (str "./foo") (by decide)).1 .tsFile
      (by decide) (by decide) (by decide) (by decide) (by decide)⟩

/-! ### Directory-index normalizer
(`addDirectorySuffix` in `src/tool/tool-resolve.mjs`, identical logic in
`enforceFileSpecifier` in `src/src/Patcher.mjs`): resolve the specifier,
and append `/index` when the resolved entry is a directory index
(absolute path ending in `/index.ts`, modelled as the root-relative key
with a leading slash restored) and the specifier text does not already end
in `/index`.  Resolution failures propagate as errors (the specifier text
is left unchanged in that case). -/

def addDirectorySuffix (g : Graph) (path specifier : Str) : Except Str Str :=
  match resolve g path specifier with
  | (.errR m, _) => .error m
  | (.fuelOut, _) => .error (str "fuel exhausted")
  | (.nullR, _) =>
    if startsWithS specifier (str ".") then .error (str "failed resolving")
    else .ok specifier
  | (.entry p _, _) =>
    if endsWithS ('/' :: p) (str "/index.ts") && !(endsWithS specifier (str "/index")) then
      .ok (specifier ++ str "/index")
    else
      .ok specifier

theorem addDirectorySuffix_noop (g : Graph) (path spec s1 : Str)
    (h : addDirectorySuffix g path spec = .ok s1)
    (hidx : endsWithS spec (str "/index") = true) : s1 = spec := by
  rw [addDirectorySuffix] at h
  split at h
  · cases h
  · cases h
  · split at h
    · cases h
    · injection h with h1
      exact h1.symm
  · rw [hidx] at h
    simp only [Bool.not_true, Bool.and_false, Bool.false_eq_true, if_false] at h
    injection h with h1
    exact h1.symm

theorem addDirectorySuffix_shape (g : Graph) (path spec s1 : Str)
    (h : addDirectorySuffix g path spec = .ok s1) :
    s1 = spec ∨ s1 = spec ++ str "/index" := by
  rw [addDirectorySuffix] at h
  split at h
  · cases h
  · cases h
  · split at h
    · cases h
    · injection h with h1
      exact Or.inl h1.symm
  · split at h
    · injection h with h1
      exact Or.inr h1.symm
    · injection h with h1
      exact Or.inl h1.symm

/-- C9: directory-index normalization is a no-op on specifiers that
already end in `/index`, and (consequently) applying the normalizer a
second time to any successful output returns that output unchanged:
twice equals once. -/
theorem claim_C9_addDirectorySuffix_idempotent (g : Graph) (path spec s1 : Str)
    (h : addDirectorySuffix g path spec = .ok s1) :
    (endsWithS spec (str "/index") = true → s1 = spec)
    ∧ (∀ s2, addDirectorySuffix g path s1 = .ok s2 → s2 = s1) := by
  constructor
  · exact addDirectorySuffix_noop g path spec s1 h
  · intro s2 h2
    rcases addDirectorySuffix_shape g path spec s1 h with h1 | h1
    · subst h1
      rw [h] at h2
      injection h2 with h3
      exact h3.symm
    · have : endsWithS s1 (str "/index") = true := by
        rw [h1]
        exact endsWithS_append _ _
      exact addDirectorySuffix_noop g path s1 s2 h2 this

/-- Witness for C9: on a graph with a real directory index, normalizing
the already-suffixed specifier `./foo/index` is a no-op, and re-running
the normalizer on the output changes nothing. -/
theorem claim_C9_witness :
    addDirectorySuffix [(str "foo", EntryKind.directory), (str "foo/index.ts", EntryKind.tsFile)]
        (str "a.ts") (str "./foo/index") = .ok (str "./foo/index") ∧
    (str "./foo/index" = str "./foo/index"
      ∧ ∀ s2, addDirectorySuffix
          [(str "foo", EntryKind.directory), (str "foo/index.ts", EntryKind.tsFile)]
          (str "a.ts") (str "./foo/index") = .ok s2 → s2 = str "./foo/index") :=
  ⟨by rfl,
    (claim_C9_addDirectorySuffix_idempotent
        [(str "foo", EntryKind.directory), (str "foo/index.ts", EntryKind.tsFile)]
        (str "a.ts") (str "./foo/index") (str "./foo/index") (by rfl)).1 (by decide),
    (claim_C9_addDirectorySuffix_idempotent
        [(str "foo", EntryKind.directory), (str "foo/index.ts", EntryKind.tsFile)]
        (str "a.ts") (str "./foo/index") (str "./foo/index") (by rfl)).2⟩

theorem mapHas_of_mem_keys {β : Type} (m : List (Str × β)) (k : Str)
    (h : k ∈ mapKeys m) : mapHas m k = true := by
  induction m with
  | nil => simp [mapKeys] at h
  | cons hd tl ih =>
    obtain ⟨k0, v0⟩ := hd
    simp only [mapKeys, List.map_cons, List.mem_cons] at h
    rw [mapHas, mapGet]
    rcases h with h | h
    · rw [if_pos h.symm]
      rfl
    · by_cases h0 : k0 = k
      · rw [if_pos h0]
        rfl
      · rw [if_neg h0]
        exact ih h

theorem mapKeys_delete_sublist {β : Type} (m : List (Str × β)) (k : Str) :
    List.Sublist (mapKeys (mapDelete m k)) (mapKeys m) := by
  induction m with
  | nil => simp [mapDelete]
  | cons hd tl ih =>
    obtain ⟨k0, v0⟩ := hd
    by_cases h0 : k0 = k
    · simp only [mapDelete, if_pos h0, mapKeys, List.map_cons]
      exact List.sublist_cons_self _ _
    · simp only [mapDelete, if_neg h0, mapKeys, List.map_cons]
      exact List.Sublist.cons₂ _ ih

/-! ### The binding classifier (`src/task/split.mjs`)

`updateImportExport` receives the original per-target specifier map
(`alias → imported name`, as built by `addImport` in
`src/tool/tool-parse.mjs`: `imports.set(specifier.local.name,
specifier.imported.name)`) together with the cloned outer maps
`newValues`/`newTypes` that it mutates.  The resolver collaborator is
abstracted to the outcome of the single `resolver.resolve(path, target)`
call: an entry carrying the resolved path and the target's value/type
export sets, `null` for package imports, or a thrown error. -/

structure Resolved : Type where
  rpath : Str
  exportsV : List Str
  exportTypes : List Str
deriving DecidableEq, Repr

inductive ResolveOutcome : Type
  | resEntry (r : Resolved)
  | resNull
  | resErr (m : Str)
deriving DecidableEq, Repr

inductive SplitErr : Type
  | unresolvedBinding (name rpath mode fpath : Str)
  | unresolvedTarget (target fpath : Str)
  | resolverError (m : Str)
deriving DecidableEq, Repr

abbrev SMap2 := List (Str × List (Str × Str))

/-- The classification loop of `updateImportExport`: for each
`[alias, name]` of the original specifier map, a name absent from the
target's value exports but present in its type exports is moved
(`newValues.get(target).delete(name)`;
`getDefault(newTypes, target, new Map()).set(name, alias)`), and a name
absent from both raises carrying the name, resolved path and mode. -/
def updateIEGo (mode fpath : Str) (r : Resolved) (target : Str) :
    List (Str × Str) → SMap2 → SMap2 → Except SplitErr (SMap2 × SMap2)
  | [], newValues, newTypes => .ok (newValues, newTypes)
  | (a, name) :: rest, newValues, newTypes =>
    if name ∈ r.exportsV then
      updateIEGo mode fpath r target rest newValues newTypes
    else if name ∈ r.exportTypes then
      updateIEGo mode fpath r target rest
        (mapSet newValues target (mapDelete ((mapGet newValues target).getD []) name))
        (mapSet newTypes target (mapSet ((mapGet newTypes target).getD []) name a))
    else
      .error (.unresolvedBinding name r.rpath mode fpath)

/-- `updateImportExport` from `src/task/split.mjs`: resolve the target
(fatal only for unresolved relative targets), skip `.json` targets, then
run the classification loop. -/
def updateImportExport (mode : Str) (res : ResolveOutcome) (fpath target : Str)
    (specifiers : List (Str × Str)) (newValues newTypes : SMap2) :
    Except SplitErr (SMap2 × SMap2) :=
  match res with
  | .resErr m => .error (.resolverError m)
  | .resNull =>
    if startsWithS target (str ".") then .error (.unresolvedTarget target fpath)
    else .ok (newValues, newTypes)
  | .resEntry r =>
    if endsWithS r.rpath (str ".json") then .ok (newValues, newTypes)
    else updateIEGo mode fpath r target specifiers newValues newTypes

/-- A name is moved by the loop iff some entry imports it and it is a
type-only export of the target. -/
def movedNameB (r : Resolved) (l : List (Str × Str)) (L : Str) : Bool :=
  (l.any fun p => p.2 = L) && !(decide (L ∈ r.exportsV)) && decide (L ∈ r.exportTypes)

theorem mapHas_set_self {β : Type} (m : List (Str × β)) (k : Str) (v : β) :
    mapHas (mapSet m k v) k = true := by
  rw [mapHas, mapGet_set_self]
  rfl

theorem mapHas_set_other {β : Type} (m : List (Str × β)) (k k' : Str) (v : β)
    (h : k ≠ k') : mapHas (mapSet m k v) k' = mapHas m k' := by
  rw [mapHas, mapGet_set_other _ _ _ _ h, mapHas]

theorem mapHas_delete_self {β : Type} (m : List (Str × β)) (k : Str)
    (hnd : (mapKeys m).Nodup) : mapHas (mapDelete m k) k = false := by
  rw [mapHas, mapGet_delete_self _ _ hnd]
  rfl

theorem mapHas_delete_other {β : Type} (m : List (Str × β)) (k k' : Str)
    (h : k ≠ k') : mapHas (mapDelete m k) k' = mapHas m k' := by
  rw [mapHas, mapGet_delete_other _ _ _ h, mapHas]

/-- Key-membership invariant of the classification loop: a local name is
present in the per-target value submap after the loop iff it was present
before and is not a moved name, and in the type submap iff it was moved or
already present before. -/
theorem updateIEGo_partition (mode fpath : Str) (r : Resolved) (target : Str)
    (l : List (Str × Str)) (v t v' t' : SMap2)
    (hnd : (mapKeys ((mapGet v target).getD [])).Nodup)
    (hok : updateIEGo mode fpath r target l v t = .ok (v', t')) :
    ∀ L : Str,
      (mapHas ((mapGet v' target).getD []) L =
        if movedNameB r l L then false else mapHas ((mapGet v target).getD []) L)
      ∧ (mapHas ((mapGet t' target).getD []) L =
        if movedNameB r l L then true else mapHas ((mapGet t target).getD []) L) := by
  induction l generalizing v t with
  | nil =>
    simp only [updateIEGo, Except.ok.injEq, Prod.mk.injEq] at hok
    obtain ⟨hv, ht⟩ := hok
    subst hv
    subst ht
    intro L
    simp [movedNameB]
  | cons hd rest ih =>
    obtain ⟨a, n⟩ := hd
    rw [updateIEGo] at hok
    by_cases h1 : n ∈ r.exportsV
    · rw [if_pos h1] at hok
      intro L
      have hmv : movedNameB r ((a, n) :: rest) L = movedNameB r rest L := by
        unfold movedNameB
        simp only [List.any_cons]
        by_cases he : n = L
        · subst he
          simp [h1]
        · simp [he]
      rw [hmv]
      exact ih v t hnd hok L
    · rw [if_neg h1] at hok
      by_cases h2 : n ∈ r.exportTypes
      · rw [if_pos h2] at hok
        intro L
        have hv1 : mapGet (mapSet v target (mapDelete ((mapGet v target).getD []) n)) target =
            some (mapDelete ((mapGet v target).getD []) n) := mapGet_set_self _ _ _
        have ht1 : mapGet (mapSet t target (mapSet ((mapGet t target).getD []) n a)) target =
            some (mapSet ((mapGet t target).getD []) n a) := mapGet_set_self _ _ _
        have hnd1 : (mapKeys ((mapGet (mapSet v target
            (mapDelete ((mapGet v target).getD []) n)) target).getD [])).Nodup := by
          rw [hv1]
          exact List.Nodup.sublist (mapKeys_delete_sublist _ _) hnd
        have hrec := ih _ _ hnd1 hok L
        rw [hv1] at hrec
        rw [ht1] at hrec
        simp only [Option.getD_some] at hrec
        by_cases he : L = n
        · subst he
          have hmv : movedNameB r ((a, L) :: rest) L = true := by
            unfold movedNameB
            simp [h1, h2]
          rw [hmv]
          constructor
          · rw [hrec.1]
            by_cases hm : movedNameB r rest L = true
            · rw [hm]
              simp
            · rw [Bool.not_eq_true] at hm
              rw [hm]
              simp only [Bool.false_eq_true, if_false, if_true]
              exact mapHas_delete_self _ _ hnd
          · rw [hrec.2]
            by_cases hm : movedNameB r rest L = true
            · rw [hm]
              simp
            · rw [Bool.not_eq_true] at hm
              rw [hm]
              simp only [Bool.false_eq_true, if_false, if_true]
              exact mapHas_set_self _ _ _
        · have hmv : movedNameB r ((a, n) :: rest) L = movedNameB r rest L := by
            unfold movedNameB
            simp only [List.any_cons]
            have : ¬ n = L := fun hc => he hc.symm
            simp [this]
          rw [hmv]
          constructor
          · rw [hrec.1, mapHas_delete_other _ _ _ (fun hc => he hc.symm)]
          · rw [hrec.2, mapHas_set_other _ _ _ _ (fun hc => he hc.symm)]
      · rw [if_neg h2] at hok
        cases hok

/-- C2: after `updateImportExport` succeeds on a target, every bound local
name that was a key of the original per-target value map (`alias → name`,
which the clone step guarantees is also the value submap the loop
mutates, with unique keys and initially disjoint from the type submap per
the documented at-most-one invariant) is a key of exactly one of the
resulting per-target value and type submaps — never both, never neither —
including when the alias differs from the imported name. -/
theorem claim_C2_split_partition (mode fpath target : Str) (res : ResolveOutcome)
    (specifiers : List (Str × Str)) (newValues newTypes v' t' : SMap2)
    (hsub : mapGet newValues target = some specifiers)
    (hnd : (mapKeys specifiers).Nodup)
    (hdisj : ∀ L ∈ mapKeys specifiers, mapHas ((mapGet newTypes target).getD []) L = false)
    (hok : updateImportExport mode res fpath target specifiers newValues newTypes =
      .ok (v', t')) :
    ∀ L ∈ mapKeys specifiers,
      (mapHas ((mapGet v' target).getD []) L = true ∧
        mapHas ((mapGet t' target).getD []) L = false)
      ∨ (mapHas ((mapGet v' target).getD []) L = false ∧
        mapHas ((mapGet t' target).getD []) L = true) := by
  intro L hL
  have hbase : mapHas ((mapGet newValues target).getD []) L = true := by
    rw [hsub]
    exact mapHas_of_mem_keys _ _ hL
  cases res with
  | resErr m =>
    rw [updateImportExport] at hok
    cases hok
  | resNull =>
    rw [updateImportExport] at hok
    split at hok
    · cases hok
    · simp only [Except.ok.injEq, Prod.mk.injEq] at hok
      obtain ⟨hv, ht⟩ := hok
      subst hv
      subst ht
      exact Or.inl ⟨hbase, hdisj L hL⟩
  | resEntry r =>
    rw [updateImportExport] at hok
    split at hok
    · simp only [Except.ok.injEq, Prod.mk.injEq] at hok
      obtain ⟨hv, ht⟩ := hok
      subst hv
      subst ht
      exact Or.inl ⟨hbase, hdisj L hL⟩
    · have hnd0 : (mapKeys ((mapGet newValues target).getD [])).Nodup := by
        rw [hsub]
        exact hnd
      have hpart := updateIEGo_partition mode fpath r target specifiers
        newValues newTypes v' t' hnd0 hok L
      by_cases hm : movedNameB r specifiers L = true
      · right
        rw [hm] at hpart
        simp only [if_true] at hpart
        exact ⟨hpart.1, hpart.2⟩
      · left
        rw [Bool.not_eq_true] at hm
        rw [hm] at hpart
        simp only [Bool.false_eq_true, if_false] at hpart
        exact ⟨hpart.1.trans hbase, hpart.2.trans (hdisj L hL)⟩

/-- Witness for C2: the aliased mixed import of A as x and B as y from
"./m", where the target exports A as a value and B only as a type: the
run succeeds and both local names land in exactly one resulting submap. -/
theorem claim_C2_witness :
    updateImportExport (str "importing from")
        (.resEntry ⟨str "m.ts", [str "A"], [str "B"]⟩) (str "f.ts") (str "./m")
        [(str "x", str "A"), (str "y", str "B")]
        [(str "./m", [(str "x", str "A"), (str "y", str "B")])] [] =
      .ok ([(str "./m", [(str "x", str "A"), (str "y", str "B")])],
        [(str "./m", [(str "B", str "y")])]) ∧
    ∀ L ∈ mapKeys [(str "x", str "A"), (str "y", str "B")],
      (mapHas ((mapGet [(str "./m", [(str "x", str "A"), (str "y", str "B")])]
          (str "./m")).getD []) L = true ∧
        mapHas ((mapGet [(str "./m", [(str "B", str "y")])] (str "./m")).getD []) L = false)
      ∨ (mapHas ((mapGet [(str "./m", [(str "x", str "A"), (str "y", str "B")])]
          (str "./m")).getD []) L = false ∧
        mapHas ((mapGet [(str "./m", [(str "B", str "y")])] (str "./m")).getD []) L = true) :=
  ⟨by rfl,
    claim_C2_split_partition (str "importing from") (str "f.ts") (str "./m")
      (.resEntry ⟨str "m.ts", [str "A"], [str "B"]⟩)
      [(str "x", str "A"), (str "y", str "B")]
      [(str "./m", [(str "x", str "A"), (str "y", str "B")])] []
      [(str "./m", [(str "x", str "A"), (str "y", str "B")])]
      [(str "./m", [(str "B", str "y")])]
      rfl (by decide) (by decide) (by rfl)⟩

theorem updateIEGo_missing (mode fpath : Str) (r : Resolved) (target : Str)
    (l : List (Str × Str)) (v t : SMap2)
    (hmiss : ∃ p ∈ l, p.2 ∉ r.exportsV ∧ p.2 ∉ r.exportTypes) :
    ∃ name, (∃ a, (a, name) ∈ l) ∧ name ∉ r.exportsV ∧ name ∉ r.exportTypes ∧
      updateIEGo mode fpath r target l v t =
        .error (.unresolvedBinding name r.rpath mode fpath) := by
  induction l generalizing v t with
  | nil => simp at hmiss
  | cons hd rest ih =>
    obtain ⟨a, n⟩ := hd
    by_cases h1 : n ∈ r.exportsV
    · have hrest : ∃ p ∈ rest, p.2 ∉ r.exportsV ∧ p.2 ∉ r.exportTypes := by
        obtain ⟨p, hp, hv2, ht2⟩ := hmiss
        rcases List.mem_cons.mp hp with h | h
        · subst h
          exact absurd h1 hv2
        · exact ⟨p, h, hv2, ht2⟩
      obtain ⟨name, ⟨a2, ha2⟩, hnv, hnt, heq⟩ := ih v t hrest
      refine ⟨name, ⟨a2, List.mem_cons_of_mem _ ha2⟩, hnv, hnt, ?_⟩
      rw [updateIEGo, if_pos h1]
      exact heq
    · by_cases h2 : n ∈ r.exportTypes
      · have hrest : ∃ p ∈ rest, p.2 ∉ r.exportsV ∧ p.2 ∉ r.exportTypes := by
          obtain ⟨p, hp, hv2, ht2⟩ := hmiss
          rcases List.mem_cons.mp hp with h | h
          · subst h
            exact absurd h2 ht2
          · exact ⟨p, h, hv2, ht2⟩
        obtain ⟨name, ⟨a2, ha2⟩, hnv, hnt, heq⟩ := ih _ _ hrest
        refine ⟨name, ⟨a2, List.mem_cons_of_mem _ ha2⟩, hnv, hnt, ?_⟩
        rw [updateIEGo, if_neg h1, if_pos h2]
        exact heq
      · refine ⟨n, ⟨a, List.mem_cons_self _ _⟩, h1, h2, ?_⟩
        rw [updateIEGo, if_neg h1, if_neg h2]

/-- C6: when some bound name of an import or re-export is absent from
both the resolved (non-json) target's value export set and its type
export set, `updateImportExport` fails with an error carrying the
offending name, the resolved target path, and the mode string that
distinguishes importing from re-exporting; the run never returns a result
(no silent drop, no classification). -/
theorem claim_C6_unresolved_binding (mode fpath target : Str) (r : Resolved)
    (specifiers : List (Str × Str)) (newValues newTypes : SMap2)
    (hjson : endsWithS r.rpath (str ".json") = false)
    (hmiss : ∃ p ∈ specifiers, p.2 ∉ r.exportsV ∧ p.2 ∉ r.exportTypes) :
    ∃ name, (∃ a, (a, name) ∈ specifiers) ∧ name ∉ r.exportsV ∧ name ∉ r.exportTypes ∧
      updateImportExport mode (.resEntry r) fpath target specifiers newValues newTypes =
        .error (.unresolvedBinding name r.rpath mode fpath) := by
  obtain ⟨name, hw, hnv, hnt, heq⟩ :=
    updateIEGo_missing mode fpath r target specifiers newValues newTypes hmiss
  refine ⟨name, hw, hnv, hnt, ?_⟩
  rw [updateImportExport, if_neg (by simp [hjson])]
  exact heq

/-- Witness for C6: importing `C` from a target exporting only value `A`
and type `B` fails with the structured unresolved-binding error. -/
theorem claim_C6_witness :
    endsWithS (str "m.ts") (str ".json") = false ∧
    ∃ name, (∃ a, (a, name) ∈ [(str "z", str "C")]) ∧
      name ∉ [str "A"] ∧ name ∉ [str "B"] ∧
      updateImportExport (str "importing from")
          (.resEntry ⟨str "m.ts", [str "A"], [str "B"]⟩) (str "f.ts") (str "./m")
          [(str "z", str "C")] [(str "./m", [(str "z", str "C")])] [] =
        .error (.unresolvedBinding name (str "m.ts") (str "importing from") (str "f.ts")) :=
  ⟨by decide,
    claim_C6_unresolved_binding (str "importing from") (str "f.ts") (str "./m")
      ⟨str "m.ts", [str "A"], [str "B"]⟩ [(str "z", str "C")]
      [(str "./m", [(str "z", str "C")])] [] (by decide)
      ⟨(str "z", str "C"), List.mem_cons_self _ _, by decide, by decide⟩⟩

/-! ### Output patchers (`src/task/task-compile.mjs`)

`patchESMImport` iterates the parsed file's top-level `body`, reading only
each declaration's `type` and `source?.value` fields; nested expressions
(in particular dynamic `import(...)` expressions inside statements) are
never visited.  A top-level node is modelled by the two fields the patcher
reads plus the list of dynamic-import specifiers nested inside it. -/

def distEsmExtS : Str := str ".dist.mjs"

def distCjsExtS : Str := str ".dist.cjs"

def declarationsToPatch : List Str :=
  [str "ImportDeclaration", str "ExportDeclaration", str "ImportAllDeclaration",
    str "ExportAllDeclaration", str "ExportNamedDeclaration"]

def isRelativeS (v : Str) : Bool :=
  startsWithS v (str "./") || startsWithS v (str "../")

structure TopNode : Type where
  typ : Str
  src : Option Str
  dynamicImports : List Str
deriving DecidableEq, Repr

/-- One iteration of the `patchESMImport` loop over a top-level node:
skip nodes whose type is not in `declarationsToPatch` or without a
(truthy) `source.value`; append `distEsmExt` to relative specifiers not
already carrying it. -/
def patchESMNode (n : TopNode) : TopNode × Bool :=
  if declarationsToPatch.contains n.typ then
    match n.src with
    | some v =>
      if v = [] then (n, false)
      else if isRelativeS v && !(endsWithS v distEsmExtS) then
        ({ n with src := some (v ++ distEsmExtS) }, true)
      else (n, false)
    | none => (n, false)
  else (n, false)

/-- `patchESMImport` over a file body: patch each top-level declaration;
the file is recorded as modified when any node was. -/
def patchESMImport (body : List TopNode) : List TopNode × Bool :=
  ((body.map patchESMNode).map Prod.fst, (body.map patchESMNode).any Prod.snd)

/-- C5 counterexample: a dynamic `import("./lib")` nested in a top-level
expression statement is left untouched by `patchESMImport` (its node type
is not in `declarationsToPatch` and the walker never descends), although
its specifier is relative and does not end in the target extension. -/
theorem claim_C5_counterexample :
    patchESMImport [⟨str "ExpressionStatement", none, [str "./lib"]⟩] =
      ([⟨str "ExpressionStatement", none, [str "./lib"]⟩], false) ∧
    isRelativeS (str "./lib") = true ∧
    endsWithS (str "./lib") distEsmExtS = false := by
  refine ⟨by rfl, by decide, by decide⟩

/-- C5 (amended): `patchESMImport` appends the module-format dist
extension to exactly the top-level import/export/re-export declarations
whose string-literal specifier is relative and does not already end in
the target extension; it leaves non-relative and already-patched
specifiers untouched, and it never rewrites dynamic import expressions
(nested specifiers pass through unchanged). -/
theorem claim_C5_patchESMImport_behavior (body : List TopNode) (n : TopNode) :
    (patchESMImport body).1 = body.map (fun m => (patchESMNode m).1)
    ∧ (patchESMNode n).1.dynamicImports = n.dynamicImports
    ∧ (∀ v, n.src = some v → declarationsToPatch.contains n.typ = true →
        isRelativeS v = true → endsWithS v distEsmExtS = false →
        (patchESMNode n).1 = { n with src := some (v ++ distEsmExtS) })
    ∧ (∀ v, n.src = some v →
        (isRelativeS v = false ∨ endsWithS v distEsmExtS = true) →
        (patchESMNode n).1 = n)
    ∧ (declarationsToPatch.contains n.typ = false → (patchESMNode n).1 = n) := by
  refine ⟨by simp [patchESMImport], ?_, ?_, ?_, ?_⟩
  · rw [patchESMNode]
    split
    · cases hsrc : n.src with
      | none => rfl
      | some v =>
        by_cases hv : v = []
        · simp [hsrc, hv]
        · by_cases hcond : (isRelativeS v && !(endsWithS v distEsmExtS)) = true
          · simp [hsrc, hv, hcond]
          · simp [hsrc, hv, hcond]
    · rfl
  · intro v hsrc htyp hrel hpatch
    have hv : v ≠ [] := by
      intro he
      subst he
      simp [isRelativeS, startsWithS, pfx, str] at hrel
    rw [patchESMNode, if_pos (by rw [htyp]), hsrc]
    simp only [hv, if_neg, hrel, hpatch]
    simp
  · intro v hsrc hcond
    rw [patchESMNode]
    split
    · rw [hsrc]
      by_cases hv : v = []
      · simp [hv]
      · have : (isRelativeS v && !(endsWithS v distEsmExtS)) = false := by
          rcases hcond with h | h
          · simp [h]
          · simp [h]
        simp [hv, this]
    · rfl
  · intro htyp
    rw [patchESMNode, if_neg (by rw [htyp]; simp)]

/-- Witness for C5 (amended) on a concrete import declaration. -/
theorem claim_C5_witness :
    isRelativeS (str "./lib") = true ∧
    endsWithS (str "./lib") distEsmExtS = false ∧
    (patchESMNode ⟨str "ImportDeclaration", some (str "./lib"), []⟩).1 =
      ⟨str "ImportDeclaration", some (str "./lib" ++ distEsmExtS), []⟩ :=
  ⟨by decide, by decide,
    (claim_C5_patchESMImport_behavior []
        ⟨str "ImportDeclaration", some (str "./lib"), []⟩).2.2.1
      (str "./lib") rfl (by decide) (by decide) (by decide)⟩

/-! ### The commonjs patcher (`patchCJSRequire` in `src/task/task-compile.mjs`)

The walker visits every `CallExpression`; a call is modelled by its callee
shape and argument list.  An acorn `Literal` node covers strings as well
as numbers, booleans, `null` and regexes; the source only tests
`args[0].type === 'Literal'` and then calls `value.startsWith(...)`, so a
single non-string literal crashes the visit with a TypeError, which
propagates out of the walk and fails the run.  `existsSync` is abstracted
as a predicate on root-relative paths, and `resolve(dirname(file), value)`
is the shared path normalization. -/

inductive LitVal : Type
  | strV (s : Str)
  | otherLit
deriving DecidableEq, Repr

inductive CallArg : Type
  | lit (v : LitVal)
  | nonLit
deriving DecidableEq, Repr

inductive Callee : Type
  | ident (name : Str)
  | other
deriving DecidableEq, Repr

structure CallNode : Type where
  callee : Callee
  args : List CallArg
deriving DecidableEq, Repr

inductive CJSWarn : Type
  | notFound (value target : Str)
  | dynamicRequire
deriving DecidableEq, Repr

/-- `${resolve(dirname(file), value)}.ts`: the candidate sibling
module-source file for a relative require specifier. -/
def requireTarget (file value : Str) : Str :=
  normPath file value ++ str ".ts"

def cjsTypeError : Str := str "TypeError: value.startsWith is not a function"

/-- One `CallExpression` visit of `patchCJSRequire`.  The `args.length
=== 1 && args[0].type === 'Literal'` test admits any Literal node; the
subsequent `value.startsWith` then throws for a non-string value. -/
def patchCJSCall (fsExists : Str → Bool) (file : Str) (c : CallNode) :
    Except Str (CallNode × List CJSWarn × Bool) :=
  match c.callee with
  | .ident name =>
    if name = str "require" then
      match c.args with
      | [.lit v] =>
        match v with
        | .strV value =>
          if isRelativeS value then
            if fsExists (requireTarget file value) then
              .ok ({ c with args := [.lit (.strV (value ++ distCjsExtS))] }, [], true)
            else
              .ok (c, [.notFound value (requireTarget file value)], false)
          else
            .ok (c, [], false)
        | .otherLit => .error cjsTypeError
      | _ => .ok (c, [.dynamicRequire], false)
    else
      .ok (c, [], false)
  | .other => .ok (c, [], false)

/-- The full walk over a compiled commonjs file's call expressions; a
TypeError thrown at one call aborts the walk (and the run). -/
def patchCJSFile (fsExists : Str → Bool) (file : Str) :
    List CallNode → Except Str (List CallNode × List CJSWarn × Bool)
  | [] => .ok ([], [], false)
  | c :: rest =>
    match patchCJSCall fsExists file c with
    | .error e => .error e
    | .ok (c2, w, m) =>
      match patchCJSFile fsExists file rest with
      | .error e => .error e
      | .ok (cs, ws, m2) => .ok (c2 :: cs, w ++ ws, m || m2)

/-- C4 counterexample: `require(42)` — a single non-string literal
argument, hence not "exactly one string literal" — is not left untouched
with a warning: the visit throws the TypeError and the file walk (and so
the run) fails. -/
theorem claim_C4_counterexample :
    patchCJSCall (fun _ => false) (str "mod.dist.cjs")
        ⟨.ident (str "require"), [.lit .otherLit]⟩ = .error cjsTypeError ∧
    patchCJSFile (fun _ => false) (str "mod.dist.cjs")
        [⟨.ident (str "require"), [.lit .otherLit]⟩] = .error cjsTypeError := by
  refine ⟨by rfl, by rfl⟩

/-- C4 (amended): `patchCJSRequire` rewrites a `require` call with
exactly one relative string-literal argument by appending the commonjs
dist extension iff a module-source file exists at the resolved path plus
`.ts`; when the sibling source is missing it leaves the call untouched
and only warns; a `require` call whose arguments are not exactly one
literal is left untouched and reported as an unsupported dynamic load
without failing the run; but a single non-string literal argument crashes
the visit with a TypeError, and the file walk propagates such an error,
so that a successful walk means every visit succeeded. -/
theorem claim_C4_patchCJSRequire_behavior (fsExists : Str → Bool) (file : Str)
    (calls : List CallNode) (c : CallNode) :
    (∀ v, c.callee = .ident (str "require") → c.args = [.lit (.strV v)] →
        isRelativeS v = true →
        ((fsExists (requireTarget file v) = true →
            patchCJSCall fsExists file c =
              .ok ({ c with args := [.lit (.strV (v ++ distCjsExtS))] }, [], true))
          ∧ (fsExists (requireTarget file v) = false →
            patchCJSCall fsExists file c =
              .ok (c, [.notFound v (requireTarget file v)], false))))
    ∧ (c.callee = .ident (str "require") → (∀ v, c.args ≠ [.lit v]) →
        patchCJSCall fsExists file c = .ok (c, [.dynamicRequire], false))
    ∧ (c.callee = .ident (str "require") → c.args = [.lit .otherLit] →
        patchCJSCall fsExists file c = .error cjsTypeError)
    ∧ (∀ cs ws m, patchCJSFile fsExists file calls = .ok (cs, ws, m) →
        ∀ c0 ∈ calls, ∃ r, patchCJSCall fsExists file c0 = .ok r) := by
  refine ⟨?_, ?_, ?_, ?_⟩
  · intro v hcallee hargs hrel
    obtain ⟨cal, args⟩ := c
    simp only at hcallee hargs
    subst hcallee
    subst hargs
    constructor
    · intro hex
      simp [patchCJSCall, hrel, hex]
    · intro hex
      simp [patchCJSCall, hrel, hex]
  · intro hcallee hshape
    obtain ⟨cal, args⟩ := c
    simp only at hcallee
    subst hcallee
    match hargs : args with
    | [] => simp [patchCJSCall]
    | [.lit v] => exact absurd rfl (hshape v)
    | [.nonLit] => simp [patchCJSCall]
    | _ :: _ :: _ => simp [patchCJSCall]
  · intro hcallee hargs
    obtain ⟨cal, args⟩ := c
    simp only at hcallee hargs
    subst hcallee
    subst hargs
    rfl
  · intro cs ws m hok c0 hc0
    induction calls generalizing cs ws m with
    | nil => simp at hc0
    | cons hd rest ih =>
      rw [patchCJSFile] at hok
      split at hok
      · cases hok
      · rename_i r2 w2 m2 heq2
        split at hok
        · cases hok
        · rename_i cs2 ws2 mm2 heq3
          rcases List.mem_cons.mp hc0 with h | h
          · subst h
            exact ⟨_, heq2⟩
          · exact ih _ _ _ heq3 h

/-- Witness for C4 (amended): `require("./lib")` in file `mod.dist.cjs`
with `lib.ts` present gets the dist extension; with it absent only a
warning; a two-argument call is reported as dynamic and the walk over it
succeeds. -/
theorem claim_C4_witness :
    (patchCJSCall (fun p => p = str "lib.ts") (str "mod.dist.cjs")
        ⟨.ident (str "require"), [.lit (.strV (str "./lib"))]⟩ =
      .ok (⟨.ident (str "require"), [.lit (.strV (str "./lib" ++ distCjsExtS))]⟩, [], true))
    ∧ (patchCJSCall (fun _ => false) (str "mod.dist.cjs")
        ⟨.ident (str "require"), [.lit (.strV (str "./lib"))]⟩ =
      .ok (⟨.ident (str "require"), [.lit (.strV (str "./lib"))]⟩,
        [.notFound (str "./lib") (requireTarget (str "mod.dist.cjs") (str "./lib"))], false))
    ∧ (patchCJSCall (fun _ => true) (str "mod.dist.cjs")
        ⟨.ident (str "require"), [.lit (.strV (str "./lib")), .nonLit]⟩ =
      .ok (⟨.ident (str "require"), [.lit (.strV (str "./lib")), .nonLit]⟩,
        [.dynamicRequire], false)) :=
  ⟨((claim_C4_patchCJSRequire_behavior (fun p => p = str "lib.ts") (str "mod.dist.cjs")
        [] ⟨.ident (str "require"), [.lit (.strV (str "./lib"))]⟩).1
      (str "./lib") rfl rfl (by decide)).1 (by decide),
    ((claim_C4_patchCJSRequire_behavior (fun _ => false) (str "mod.dist.cjs")
        [] ⟨.ident (str "require"), [.lit (.strV (str "./lib"))]⟩).1
      (str "./lib") rfl rfl (by decide)).2 rfl,
    (claim_C4_patchCJSRequire_behavior (fun _ => true) (str "mod.dist.cjs")
        [] ⟨.ident (str "require"), [.lit (.strV (str "./lib")), .nonLit]⟩).2.1
      rfl (by intro v h; cases h)⟩

/-! ### Manifest patching (`patchPackageJson` in `src/tool/tool-package.mjs`)

Paths are package-root-relative (the `cwd` prefix the source joins on and
then strips again via `toRel(cwd, ...)` is elided); `toRel` therefore just
prepends `./`. -/

/-- node `basename(x, a)`: the last path component, with the suffix `a`
stripped when it is a proper suffix. -/
def basenameS (x a : Str) : Str :=
  let base := ((splitC x).getLast (splitC_ne_nil x))
  if base ≠ a ∧ endsWithS base a then base.take (base.length - a.length) else base

/-- node `join(d, f)` for the shapes used here (a dirname and a bare
file name). -/
def joinP (d f : Str) : Str :=
  if d = [] then f else d ++ '/' :: f

/-- `replaceExtension(x, a, b)` from `src/tool/tool-package.mjs`:
`join(dirname(x), basename(x, a) + b)`. -/
def replaceExtension (x a b : Str) : Str :=
  joinP (joinC ((splitC x).dropLast)) (basenameS x a ++ b)

/-- `toRel(cwd, path)` with the cwd prefix elided: prepend `./`. -/
def toRel (p : Str) : Str := str "./" ++ p

structure PkgJson : Type where
  main : Option Str
  browser : Option Str
  typ : Option Str
  types : Option Str
  exports : Option (List (Str × List (Str × Str)))
  files : List Str
  ubik : Bool
deriving DecidableEq, Repr

inductive PkgErr : Type
  | wrongMainExtension
  | undefinedMain
deriving DecidableEq, Repr

def distDtsExtS : Str := str ".dist.d.ts"

/-- The branch-independent tail of `patchPackageJson`: set `main` to the
module-format entrypoint and write the conditional exports for `"."`. -/
def patchPackageJsonFinish (pkg1 : PkgJson) (mainP esmMain cjsMain : Str) : PkgJson :=
  if pkg1.typ = some (str "module") then
    { pkg1 with
      main := some (toRel esmMain),
      exports := some (mapSet (pkg1.exports.getD []) (str ".")
        [(str "source", toRel mainP), (str "require", toRel cjsMain),
          (str "default", toRel esmMain)]) }
  else
    { pkg1 with
      main := some (toRel esmMain),
      exports := some (mapSet (pkg1.exports.getD []) (str ".")
        [(str "source", toRel mainP), (str "import", toRel esmMain),
          (str "default", toRel cjsMain)]) }

/-- `patchPackageJson`: compute the three dist entrypoints from `main`
(default `index.ts`), set `types`, default `exports` to an empty map,
enforce the forced-TS main-extension check (which reads `pkgJson.main`
directly and so crashes on an absent `main`), then fill in `main` and the
`"."` export conditions depending on whether `type` is `module`. -/
def patchPackageJsonM (forceTS : Bool) (pkg : PkgJson) : Except PkgErr PkgJson :=
  let mainP := pkg.main.getD (str "index.ts")
  let esmMain := replaceExtension mainP (str ".ts") distEsmExtS
  let cjsMain := replaceExtension mainP (str ".ts") distCjsExtS
  let dtsMain := replaceExtension mainP (str ".ts") distDtsExtS
  let pkg1 := { pkg with
    types := some (toRel dtsMain),
    exports := some (pkg.exports.getD []) }
  match forceTS, pkg.main with
  | true, none => .error .undefinedMain
  | true, some m =>
    if endsWithS m (str ".js") then .error .wrongMainExtension
    else .ok (patchPackageJsonFinish pkg1 mainP esmMain cjsMain)
  | false, _ => .ok (patchPackageJsonFinish pkg1 mainP esmMain cjsMain)

/-- C10: for every successfully processed manifest, `main` is set to the
module-format entrypoint (original main with `.ts` replaced by
`.dist.mjs`) in both branches of the `type` test, `types` is always the
`.dist.d.ts` entrypoint, only the `"."` entry of the conditional exports
map differs between the branches (`require`+`default` when `type` is
`module`, `import`+`default` otherwise, both alongside `source`), and
every other manifest field and export key is preserved. -/
theorem claim_C10_patchPackageJson_dual (forceTS : Bool) (pkg r : PkgJson)
    (hok : patchPackageJsonM forceTS pkg = .ok r) :
    r.main = some (toRel (replaceExtension (pkg.main.getD (str "index.ts"))
      (str ".ts") distEsmExtS))
    ∧ r.types = some (toRel (replaceExtension (pkg.main.getD (str "index.ts"))
      (str ".ts") distDtsExtS))
    ∧ (pkg.typ = some (str "module") →
        mapGet (r.exports.getD []) (str ".") = some
          [(str "source", toRel (pkg.main.getD (str "index.ts"))),
            (str "require", toRel (replaceExtension (pkg.main.getD (str "index.ts"))
              (str ".ts") distCjsExtS)),
            (str "default", toRel (replaceExtension (pkg.main.getD (str "index.ts"))
              (str ".ts") distEsmExtS))])
    ∧ (pkg.typ ≠ some (str "module") →
        mapGet (r.exports.getD []) (str ".") = some
          [(str "source", toRel (pkg.main.getD (str "index.ts"))),
            (str "import", toRel (replaceExtension (pkg.main.getD (str "index.ts"))
              (str ".ts") distEsmExtS)),
            (str "default", toRel (replaceExtension (pkg.main.getD (str "index.ts"))
              (str ".ts") distCjsExtS))])
    ∧ (∀ k, k ≠ str "." →
        mapGet (r.exports.getD []) k = mapGet (pkg.exports.getD []) k)
    ∧ r.browser = pkg.browser ∧ r.typ = pkg.typ ∧ r.files = pkg.files
    ∧ r.ubik = pkg.ubik := by
  have hfin : r = patchPackageJsonFinish
      { pkg with
        types := some (toRel (replaceExtension (pkg.main.getD (str "index.ts"))
          (str ".ts") distDtsExtS)),
        exports := some (pkg.exports.getD []) }
      (pkg.main.getD (str "index.ts"))
      (replaceExtension (pkg.main.getD (str "index.ts")) (str ".ts") distEsmExtS)
      (replaceExtension (pkg.main.getD (str "index.ts")) (str ".ts") distCjsExtS) := by
    rw [patchPackageJsonM.eq_def] at hok
    simp only at hok
    split at hok
    · cases hok
    · split at hok
      · cases hok
      · injection hok with h1
        exact h1.symm
    · injection hok with h1
      exact h1.symm
  subst hfin
  rw [patchPackageJsonFinish]
  by_cases htyp : pkg.typ = some (str "module")
  · rw [if_pos (by simpa using htyp)]
    refine ⟨rfl, rfl, fun _ => ?_, fun hc => absurd htyp hc, fun k hk => ?_, rfl, rfl, rfl, rfl⟩
    · simp only [Option.getD_some]
      exact mapGet_set_self _ _ _
    · simp only [Option.getD_some]
      exact mapGet_set_other _ _ _ _ (fun he => hk he.symm)
  · rw [if_neg (by simpa using htyp)]
    refine ⟨rfl, rfl, fun hc => absurd hc htyp, fun _ => ?_, fun k hk => ?_, rfl, rfl, rfl, rfl⟩
    · simp only [Option.getD_some]
      exact mapGet_set_self _ _ _
    · simp only [Option.getD_some]
      exact mapGet_set_other _ _ _ _ (fun he => hk he.symm)

/-- Witness for C10 on a package with `main` `src/index.ts` and no `type`
field. -/
theorem claim_C10_witness :
    patchPackageJsonM false
        ⟨some (str "src/index.ts"), none, none, none, none, [], false⟩ =
      .ok (patchPackageJsonFinish
        ⟨some (str "src/index.ts"), none, none,
          some (toRel (replaceExtension (str "src/index.ts") (str ".ts") distDtsExtS)),
          some [], [], false⟩
        (str "src/index.ts")
        (replaceExtension (str "src/index.ts") (str ".ts") distEsmExtS)
        (replaceExtension (str "src/index.ts") (str ".ts") distCjsExtS)) ∧
    (patchPackageJsonFinish
        ⟨some (str "src/index.ts"), none, none,
          some (toRel (replaceExtension (str "src/index.ts") (str ".ts") distDtsExtS)),
          some [], [], false⟩
        (str "src/index.ts")
        (replaceExtension (str "src/index.ts") (str ".ts") distEsmExtS)
        (replaceExtension (str "src/index.ts") (str ".ts") distCjsExtS)).main =
      some (toRel (replaceExtension (str "src/index.ts") (str ".ts") distEsmExtS)) :=
  ⟨by rfl,
    (claim_C10_patchPackageJson_dual false
      ⟨some (str "src/index.ts"), none, none, none, none, [], false⟩ _ (by rfl)).1⟩

/-! ### Compile/patch orchestration (`prepareTypeScript`, `flattenFiles`,
`collectFiles`, `patchAll`, `revertModifications` in
`src/task/task-compile.mjs`)

The filesystem is a map from package-root-relative path to content.
External collaborators are parameters: the compiler invocation is the
file tree it writes (`tscOut`), the per-file patch transforms are
functions (as `patchAll` itself takes `patch` as an argument), and
`JSON.stringify` of the manifest is `render`.  Failure injection: a copy
in `collectFiles` throws iff its source path is listed in `faulty`. -/

abbrev FS := List (Str × Str)

def fsWrite (fs : FS) (p c : Str) : FS := mapSet fs p c

def fsUnlink (fs : FS) (p : Str) : FS := mapDelete fs p

def fsWriteAll (fs : FS) (outs : List (Str × Str)) : FS :=
  outs.foldl (fun acc pc => fsWrite acc pc.1 pc.2) fs

/-- `rimraf.sync(dir)`: delete the directory tree. -/
def rimrafF (fs : FS) (dir : Str) : FS :=
  fs.filter fun pc => !((pc.1 = dir) || startsWithS pc.1 (dir ++ str "/"))

/-- node `dirname` (package-root-relative). -/
def dirnameS (x : Str) : Str := joinC ((splitC x).dropLast)

/-- `relative(distDir, file)` for a file under `distDir`. -/
def stripDirPfx (file dirSlash : Str) : Str :=
  if startsWithS file dirSlash then file.drop dirSlash.length else file

/-- node `join(srcDir, rel)` where `srcDir` is a dirname (possibly `.`). -/
def joinD (d f : Str) : Str :=
  if d = [] ∨ d = str "." then f else d ++ '/' :: f

def strLeB : Str → Str → Bool
  | [], _ => true
  | _ :: _, [] => false
  | a :: as, b :: bs => if a = b then strLeB as bs else decide (a < b)

def insertSorted (x : Str) : List Str → List Str
  | [] => [x]
  | y :: ys => if strLeB x y then x :: y :: ys else y :: insertSorted x ys

/-- `[...distFiles].sort()`. -/
def sortStrs : List Str → List Str
  | [] => []
  | x :: xs => insertSorted x (sortStrs xs)

def dtsOutS : Str := str "dist/dts"
def esmOutS : Str := str "dist/esm"
def cjsOutS : Str := str "dist/cjs"
def pkgJsonPath : Str := str "package.json"
def pkgJsonBakPath : Str := str "package.json.bak"

/-- The copy/unlink loop of `collectFiles` over the globbed inputs;
each iteration copies the compiled file to its flattened location,
deletes the original, and records the new path in `distFiles`. -/
def collectGo (faulty : List Str) (srcDir distDir ext1 ext2 : Str) :
    List Str → FS → List Str → Except (Str × FS) (FS × List Str)
  | [], fs, distFiles => .ok (fs, distFiles)
  | file :: rest, fs, distFiles =>
    if file ∈ faulty then .error (str "copy failed", fs)
    else
      match mapGet fs file with
      | none => .error (str "copy source missing", fs)
      | some content =>
        let newFile := replaceExtension
          (joinD srcDir (stripDirPfx file (distDir ++ str "/"))) ext1 ext2
        collectGo faulty srcDir distDir ext1 ext2 rest
          (fsUnlink (fsWrite fs newFile content) file)
          (distFiles ++ [newFile])

/-- `collectFiles`: glob `distDir` for `ext1` files, then relocate each. -/
def collectFiles (faulty : List Str) (srcDir distDir ext1 ext2 : Str)
    (fs : FS) (distFiles : List Str) : Except (Str × FS) (FS × List Str) :=
  collectGo faulty srcDir distDir ext1 ext2
    ((mapKeys fs).filter fun p =>
      startsWithS p (distDir ++ str "/") && endsWithS p ext1)
    fs distFiles

/-- `flattenFiles`: relocate ESM, CJS and DTS outputs, prepend the sorted
collected paths to the manifest file list, and delete the dist dirs.
The collected set lives in a local of this function and is returned only
on success. -/
def flattenFiles (faulty : List Str) (fs : FS) (pkgFiles : List Str)
    (mainDir : Str) : Except (Str × FS) (FS × List Str × List Str) :=
  match collectFiles faulty mainDir esmOutS (str ".js") distEsmExtS fs [] with
  | .error e => .error e
  | .ok (fs1, df1) =>
    match collectFiles faulty mainDir cjsOutS (str ".js") distCjsExtS fs1 df1 with
    | .error e => .error e
    | .ok (fs2, df2) =>
      match collectFiles faulty mainDir dtsOutS (str ".d.ts") distDtsExtS fs2 df2 with
      | .error e => .error e
      | .ok (fs3, df3) =>
        .ok (rimrafF (rimrafF (rimrafF fs3 dtsOutS) esmOutS) cjsOutS,
          df3, sortStrs df3 ++ pkgFiles)

/-- The per-file loop of `patchAll`: read each matching file, apply the
patch transform, record modified contents in the patch record, and write
back only when not in dry-run mode. -/
def patchGo (patchFn : Str → Except Str (Option Str)) (dryRun : Bool) :
    List Str → FS → List (Str × Str) → Except (Str × FS) (FS × List (Str × Str))
  | [], fs, patched => .ok (fs, patched)
  | f :: rest, fs, patched =>
    match mapGet fs f with
    | none => .error (str "read failed", fs)
    | some content =>
      match patchFn content with
      | .error e => .error (e, fs)
      | .ok none => patchGo patchFn dryRun rest fs patched
      | .ok (some newC) =>
        if dryRun then patchGo patchFn dryRun rest fs (mapSet patched f newC)
        else patchGo patchFn dryRun rest (fsWrite fs f newC) (mapSet patched f newC)

/-- `patchAll(ext, patch, ...)`: filter the manifest file list by
extension and run the loop. -/
def patchAllM (ext : Str) (patchFn : Str → Except Str (Option Str))
    (dryRun : Bool) (fs : FS) (files : List Str) :
    Except (Str × FS) (FS × List (Str × Str)) :=
  patchGo patchFn dryRun (files.filter fun f => endsWithS f ext) fs []

/-- `revertModifications` (with `keep` false, as the orchestrator's error
handler always passes): restore `package.json` from the backup if one
exists, delete the dist directories, and delete every recorded dist
file. -/
def revertModifications (keep : Bool) (distFiles : List Str) (fs : FS) : FS :=
  if keep then fs
  else
    let fs1 :=
      match mapGet fs pkgJsonBakPath with
      | some bak =>
        fsUnlink (fsWrite (fsUnlink fs pkgJsonPath) pkgJsonPath bak) pkgJsonBakPath
      | none => fs
    distFiles.foldl fsUnlink (rimrafF (rimrafF (rimrafF fs1 dtsOutS) esmOutS) cjsOutS)

/-- `prepareTypeScript`: compile (inject the compiler's output tree), then
flatten, patch the manifest object, run the three patchers, and finally
either print (dry run) or back up and write the manifest.  Every step
from flattening to the commonjs patching reverts on error — with the
caveat, faithful to the source, that the outer `distFiles` binding is
still the initial empty set if `flattenFiles` itself throws, because the
partially filled set is local to `flattenFiles`.  The `pkgJson.ubik =
true` mutation only touches the `ubik` field, so the reads of `main` and
`files` below use `pkg0` directly. -/
def prepareTypeScript (dryRun keep : Bool) (faulty : List Str)
    (tscOut : List (Str × Str))
    (esmPatch dtsPatch cjsPatch : Str → Except Str (Option Str))
    (forceTS : Bool) (render : PkgJson → Str)
    (fs0 : FS) (pkg0 : PkgJson) : Except (Str × FS) (FS × List Str) :=
  match flattenFiles faulty (fsWriteAll fs0 tscOut) pkg0.files
      (dirnameS (pkg0.main.getD (str "index.ts"))) with
  | .error (e, fsE) => .error (e, revertModifications false [] fsE)
  | .ok (fs1, distFiles, files1) =>
    match patchPackageJsonM forceTS { pkg0 with ubik := true, files := files1 } with
    | .error _ => .error (str "patchPackageJson failed",
        revertModifications false distFiles fs1)
    | .ok pkg2 =>
      match patchAllM distEsmExtS esmPatch dryRun fs1 pkg2.files with
      | .error (e, fsE) => .error (e, revertModifications false distFiles fsE)
      | .ok (fs2, _) =>
        match patchAllM distDtsExtS dtsPatch dryRun fs2 pkg2.files with
        | .error (e, fsE) => .error (e, revertModifications false distFiles fsE)
        | .ok (fs3, _) =>
          match patchAllM distCjsExtS cjsPatch dryRun fs3 pkg2.files with
          | .error (e, fsE) => .error (e, revertModifications false distFiles fsE)
          | .ok (fs4, _) =>
            if dryRun then .ok (fs4, distFiles)
            else
              match mapGet fs4 pkgJsonPath with
              | none => .error (str "manifest missing", fs4)
              | some manifest =>
                .ok (fsWrite (fsWrite fs4 pkgJsonBakPath manifest)
                  pkgJsonPath (render pkg2), distFiles)

theorem patchGo_dry (patchFn : Str → Except Str (Option Str)) (l : List Str)
    (fs : FS) (pr : List (Str × Str)) (fs2 : FS) (pr2 : List (Str × Str))
    (h : patchGo patchFn true l fs pr = .ok (fs2, pr2)) : fs2 = fs := by
  induction l generalizing fs pr with
  | nil =>
    simp only [patchGo, Except.ok.injEq, Prod.mk.injEq] at h
    exact h.1.symm
  | cons f rest ih =>
    rw [patchGo] at h
    split at h
    · cases h
    · split at h
      · cases h
      · exact ih fs pr h
      · exact ih fs _ h

theorem patchAllM_dry (ext : Str) (patchFn : Str → Except Str (Option Str))
    (fs : FS) (files : List Str) (fs2 : FS) (pr2 : List (Str × Str))
    (h : patchAllM ext patchFn true fs files = .ok (fs2, pr2)) : fs2 = fs :=
  patchGo_dry patchFn _ fs [] fs2 pr2 h

theorem replaceExtension_endsWith (x a b : Str) :
    endsWithS (replaceExtension x a b) b = true := by
  rw [replaceExtension, joinP]
  split
  · exact endsWithS_append _ _
  · rw [show joinC ((splitC x).dropLast) ++ '/' :: (basenameS x a ++ b) =
        (joinC ((splitC x).dropLast) ++ '/' :: basenameS x a) ++ b by
      rw [List.append_assoc]
      rfl]
    exact endsWithS_append _ _

theorem collectGo_preserves (faulty : List Str) (srcDir distDir ext1 ext2 p : Str)
    (hpe : endsWithS p ext2 = false) (l : List Str) (hl : ∀ f ∈ l, f ≠ p)
    (fs : FS) (df : List Str) (fs2 : FS) (df2 : List Str)
    (h : collectGo faulty srcDir distDir ext1 ext2 l fs df = .ok (fs2, df2)) :
    mapGet fs2 p = mapGet fs p := by
  induction l generalizing fs df with
  | nil =>
    simp only [collectGo, Except.ok.injEq, Prod.mk.injEq] at h
    rw [h.1]
  | cons f rest ih =>
    rw [collectGo] at h
    split at h
    · cases h
    · split at h
      · cases h
      · next content heq =>
        have hstep := ih (fun g hg => hl g (List.mem_cons_of_mem _ hg)) _ _ h
        rw [hstep]
        have hfp : f ≠ p := hl f (List.mem_cons_self _ _)
        have hnewp : replaceExtension (joinD srcDir (stripDirPfx f (distDir ++ str "/")))
            ext1 ext2 ≠ p := by
          intro he
          rw [← he] at hpe
          rw [replaceExtension_endsWith] at hpe
          cases hpe
        rw [fsUnlink, mapGet_delete_other _ _ _ hfp, fsWrite,
          mapGet_set_other _ _ _ _ hnewp]

theorem collectFiles_preserves (faulty : List Str) (srcDir distDir ext1 ext2 p : Str)
    (hpe : endsWithS p ext2 = false)
    (hpd : startsWithS p (distDir ++ str "/") = false)
    (fs : FS) (df : List Str) (fs2 : FS) (df2 : List Str)
    (h : collectFiles faulty srcDir distDir ext1 ext2 fs df = .ok (fs2, df2)) :
    mapGet fs2 p = mapGet fs p := by
  refine collectGo_preserves faulty srcDir distDir ext1 ext2 p hpe _ ?_ fs df fs2 df2 h
  intro f hf he
  subst he
  simp only [List.mem_filter, Bool.and_eq_true] at hf
  rw [hf.2.1] at hpd
  cases hpd

theorem rimraf_preserves (fs : FS) (dir p : Str) (hne : p ≠ dir)
    (hns : startsWithS p (dir ++ str "/") = false) :
    mapGet (rimrafF fs dir) p = mapGet fs p := by
  induction fs with
  | nil => rfl
  | cons hd tl ih =>
    obtain ⟨k, c⟩ := hd
    rw [rimrafF] at ih ⊢
    rw [List.filter_cons]
    by_cases hk : ((k = dir : Bool) || startsWithS k (dir ++ str "/")) = true
    · have hkp : ¬ k = p := by
        intro he
        subst he
        simp only [Bool.or_eq_true, decide_eq_true_eq] at hk
        rcases hk with h | h
        · exact hne h
        · rw [h] at hns
          cases hns
      simp only [hk, Bool.not_true, if_neg]
      rw [mapGet, if_neg hkp]
      simp only [Bool.false_eq_true, if_false]
      exact ih
    · rw [Bool.not_eq_true] at hk
      simp only [hk, Bool.not_false, if_pos]
      rw [mapGet, mapGet]
      split
      · rfl
      · exact ih

theorem flattenFiles_preserves_pkgJson (faulty : List Str) (fs : FS)
    (pkgFiles : List Str) (mainDir : Str) (fs2 : FS) (df : List Str)
    (files2 : List Str)
    (h : flattenFiles faulty fs pkgFiles mainDir = .ok (fs2, df, files2)) :
    mapGet fs2 pkgJsonPath = mapGet fs pkgJsonPath := by
  rw [flattenFiles] at h
  split at h
  · cases h
  · rename_i fsA dfA heqA
    split at h
    · cases h
    · rename_i fsB dfB heqB
      split at h
      · cases h
      · rename_i fsC dfC heqC
        simp only [Except.ok.injEq, Prod.mk.injEq] at h
        obtain ⟨hfs, -, -⟩ := h
        subst hfs
        rw [rimraf_preserves _ _ _ (by decide) (by decide),
          rimraf_preserves _ _ _ (by decide) (by decide),
          rimraf_preserves _ _ _ (by decide) (by decide)]
        rw [collectFiles_preserves _ _ _ _ _ _ (by decide) (by decide) _ _ _ _ heqC,
          collectFiles_preserves _ _ _ _ _ _ (by decide) (by decide) _ _ _ _ heqB,
          collectFiles_preserves _ _ _ _ _ _ (by decide) (by decide) _ _ _ _ heqA]

theorem fsWriteAll_preserves (fs : FS) (outs : List (Str × Str)) (p : Str)
    (h : ∀ pc ∈ outs, pc.1 ≠ p) :
    mapGet (fsWriteAll fs outs) p = mapGet fs p := by
  induction outs generalizing fs with
  | nil => rfl
  | cons hd tl ih =>
    obtain ⟨k, c⟩ := hd
    rw [fsWriteAll, List.foldl_cons]
    rw [show tl.foldl (fun acc pc => fsWrite acc pc.1 pc.2) (fsWrite fs k c) =
      fsWriteAll (fsWrite fs k c) tl from rfl]
    rw [ih (fsWrite fs k c) (fun pc hpc => h pc (List.mem_cons_of_mem _ hpc))]
    exact mapGet_set_other _ _ _ _ (h (k, c) (List.mem_cons_self _ _))

/-! Concrete orchestration scenarios: a package with `main` `index.ts`,
whose compiler run produced one ESM, one CJS and one DTS output. -/

def pkgRun : PkgJson := ⟨some (str "index.ts"), none, none, none, none, [], false⟩

def fsRun : FS := [(pkgJsonPath, str "MANIFEST"), (str "index.ts", str "SRC")]

def tscOutRun : List (Str × Str) :=
  [(str "dist/esm/index.js", str "E"), (str "dist/cjs/index.js", str "C"),
    (str "dist/dts/index.d.ts", str "D")]

/-- C1: evaluating the orchestration at the failing input.  The ESM
output has already been relocated to `index.dist.mjs` when the copy of
the CJS output fails; the revert runs with the outer (still empty)
`distFiles` set, so the relocated file survives: the post-revert
filesystem contains an orphaned generated file that the pre-run
filesystem did not, even though the manifest is byte-identical. -/
theorem claim_C1_relocation_failure_leaves_orphan :
    prepareTypeScript false false [str "dist/cjs/index.js"] tscOutRun
        (fun _ => .ok none) (fun _ => .ok none) (fun _ => .ok none) false
        (fun _ => str "NEW") fsRun pkgRun =
      .error (str "copy failed",
        [(pkgJsonPath, str "MANIFEST"), (str "index.ts", str "SRC"),
          (str "index.dist.mjs", str "E")]) ∧
    mapGet fsRun (str "index.dist.mjs") = none ∧
    mapGet [(pkgJsonPath, str "MANIFEST"), (str "index.ts", str "SRC"),
        (str "index.dist.mjs", str "E")] (str "index.dist.mjs") = some (str "E") ∧
    mapGet [(pkgJsonPath, str "MANIFEST"), (str "index.ts", str "SRC"),
        (str "index.dist.mjs", str "E")] pkgJsonPath = mapGet fsRun pkgJsonPath := by
  refine ⟨by rfl, by rfl, by rfl, by rfl⟩

/-- C8 counterexample: a successful dry run still relocates the compiled
outputs into the package root — the resulting filesystem contains
`index.dist.mjs` (and the other dist files) that were not there before
the run, so the tree is not byte-for-byte unchanged. -/
theorem claim_C8_counterexample :
    prepareTypeScript true false [] tscOutRun
        (fun _ => .ok none) (fun _ => .ok none) (fun _ => .ok none) false
        (fun _ => str "NEW") fsRun pkgRun =
      .ok ([(pkgJsonPath, str "MANIFEST"), (str "index.ts", str "SRC"),
            (str "index.dist.mjs", str "E"), (str "index.dist.cjs", str "C"),
            (str "index.dist.d.ts", str "D")],
        [str "index.dist.mjs", str "index.dist.cjs", str "index.dist.d.ts"]) ∧
    mapGet fsRun (str "index.dist.mjs") = none ∧
    mapGet [(pkgJsonPath, str "MANIFEST"), (str "index.ts", str "SRC"),
        (str "index.dist.mjs", str "E"), (str "index.dist.cjs", str "C"),
        (str "index.dist.d.ts", str "D")] (str "index.dist.mjs") = some (str "E") := by
  refine ⟨by rfl, by rfl, by rfl⟩

/-- C8 (amended): in a dry run the patchers accumulate contents only in
the in-memory patch record and the rewritten manifest is only printed:
the manifest file is byte-identical after the run, and the final
filesystem is exactly the output of the relocation stage — no write
after flattening occurs.  (The relocation itself, however, does touch
disk even in dry-run mode, per the counterexample.) -/
theorem claim_C8_dry_run_behavior (keepB forceTS : Bool) (faulty : List Str)
    (tscOut : List (Str × Str))
    (esmPatch dtsPatch cjsPatch : Str → Except Str (Option Str))
    (render : PkgJson → Str) (fs0 : FS) (pkg0 : PkgJson) (fs2 : FS) (d : List Str)
    (htsc : ∀ pc ∈ tscOut, pc.1 ≠ pkgJsonPath)
    (hok : prepareTypeScript true keepB faulty tscOut esmPatch dtsPatch cjsPatch
      forceTS render fs0 pkg0 = .ok (fs2, d)) :
    mapGet fs2 pkgJsonPath = mapGet fs0 pkgJsonPath
    ∧ ∃ files1, flattenFiles faulty (fsWriteAll fs0 tscOut) pkg0.files
        (dirnameS (pkg0.main.getD (str "index.ts"))) = .ok (fs2, d, files1) := by
  rw [prepareTypeScript] at hok
  split at hok
  · cases hok
  · rename_i fs1 df files1 heqflat
    split at hok
    · cases hok
    · rename_i pkg2 heqpkg
      split at hok
      · cases hok
      · rename_i fsE prE heqE
        split at hok
        · cases hok
        · rename_i fsD prD heqD
          split at hok
          · cases hok
          · rename_i fsC2 prC2 heqC2
            rw [if_pos rfl] at hok
            injection hok with h1
            have hfs : fsC2 = fs2 := congrArg Prod.fst h1
            have hd : df = d := congrArg Prod.snd h1
            have he1 : fsE = fs1 := patchAllM_dry _ _ _ _ _ _ heqE
            have he2 : fsD = fsE := patchAllM_dry _ _ _ _ _ _ heqD
            have he3 : fsC2 = fsD := patchAllM_dry _ _ _ _ _ _ heqC2
            constructor
            · rw [← hfs, he3, he2, he1,
                flattenFiles_preserves_pkgJson _ _ _ _ _ _ _ heqflat]
              exact fsWriteAll_preserves fs0 tscOut pkgJsonPath htsc
            · refine ⟨files1, ?_⟩
              rw [← hfs, ← hd, he3, he2, he1]
              exact heqflat

/-- Witness for C8 (amended) at the concrete dry run. -/
theorem claim_C8_witness :
    (∀ pc ∈ tscOutRun, pc.1 ≠ pkgJsonPath) ∧
    (mapGet [(pkgJsonPath, str "MANIFEST"), (str "index.ts", str "SRC"),
        (str "index.dist.mjs", str "E"), (str "index.dist.cjs", str "C"),
        (str "index.dist.d.ts", str "D")] pkgJsonPath = mapGet fsRun pkgJsonPath
      ∧ ∃ files1, flattenFiles [] (fsWriteAll fsRun tscOutRun) pkgRun.files
          (dirnameS (pkgRun.main.getD (str "index.ts"))) =
        .ok ([(pkgJsonPath, str "MANIFEST"), (str "index.ts", str "SRC"),
            (str "index.dist.mjs", str "E"), (str "index.dist.cjs", str "C"),
            (str "index.dist.d.ts", str "D")],
          [str "index.dist.mjs", str "index.dist.cjs", str "index.dist.d.ts"],
          files1)) :=
  ⟨by decide,
    claim_C8_dry_run_behavior false false [] tscOutRun
      (fun _ => .ok none) (fun _ => .ok none) (fun _ => .ok none)
      (fun _ => str "NEW") fsRun pkgRun
      [(pkgJsonPath, str "MANIFEST"), (str "index.ts", str "SRC"),
        (str "index.dist.mjs", str "E"), (str "index.dist.cjs", str "C"),
        (str "index.dist.d.ts", str "D")]
      [str "index.dist.mjs", str "index.dist.cjs", str "index.dist.d.ts"]
      (by decide) (by rfl)⟩
